import Mathlib

/-!
Verification of the Markdown → WeChat-HTML theme engine
(`src/html_convert.py` of CherryLover/wechat-publisher).

The Python module is shallowly embedded here: strings are `List Char`,
the module-level theme cache is an explicit association-list parameter,
and the two external capabilities (the `css_inline` inliner and the
`markdown` renderer) are universally-quantified function parameters.
All regular expressions of the source are embedded by their operational
(leftmost, non-overlapping, greedy/lazy backtracking) semantics on the
concrete patterns the source uses.
-/

set_option maxRecDepth 40000

set_option maxHeartbeats 2000000

namespace WechatHtml

/-- Strings of the embedded program are lists of characters. -/
abbrev Str := List Char

/-- The single-quote character (spelled by code to keep sources ASCII-clean). -/
def squote : Char := Char.ofNat 39

/-- The opening-brace character. -/
def lbrace : Char := Char.ofNat 123

/-- The closing-brace character. -/
def rbrace : Char := Char.ofNat 125

/-- Whitespace characters skipped by the tokenizer's explicit
`block[i] in ' \t\n\r'` test in `_parse_css_declarations`. -/
def srcWs (c : Char) : Bool := c = ' ' || c = '\t' || c = '\n' || c = '\r'

/-- ASCII whitespace stripped by Python's `str.strip()`
(space, tab, newline, carriage return, vertical tab, form feed). -/
def pyWs (c : Char) : Bool :=
  c = ' ' || c = '\t' || c = '\n' || c = '\r' || c = Char.ofNat 11 || c = Char.ofNat 12

/-- Python `str.strip()`: drop leading and trailing whitespace. -/
def pyStrip (s : Str) : Str :=
  ((s.dropWhile pyWs).reverse.dropWhile pyWs).reverse

/-- If `pat` is a literal prefix of `s`, return the remainder after it. -/
def stripPre : Str → Str → Option Str
  | [], s => some s
  | _ :: _, [] => none
  | p :: ps, c :: cs => if p = c then stripPre ps cs else none

/-- Split `s` at the first occurrence of the literal substring `pat`:
returns `(before, after)` with `s = before ++ pat ++ after`. -/
def splitSub (pat : Str) : Str → Option (Str × Str)
  | [] =>
    match stripPre pat [] with
    | some r => some ([], r)
    | none => none
  | c :: cs =>
    match stripPre pat (c :: cs) with
    | some r => some ([], r)
    | none => (splitSub pat cs).map (fun p => (c :: p.1, p.2))

/-- Python's `pat in s` substring test. -/
def containsSub (pat : Str) (s : Str) : Bool := (splitSub pat s).isSome

theorem stripPre_eq_append {pat s r : Str} (h : stripPre pat s = some r) :
    s = pat ++ r := by
  induction pat generalizing s with
  | nil =>
    simp only [stripPre, Option.some.injEq] at h
    simp [h]
  | cons p ps ih =>
    cases s with
    | nil => simp [stripPre] at h
    | cons c cs =>
      by_cases hpc : p = c
      · simp only [stripPre, if_pos hpc] at h
        have := ih h
        simp [← hpc, this]
      · simp only [stripPre, if_neg hpc] at h
        cases h

theorem stripPre_length {pat s r : Str} (h : stripPre pat s = some r) :
    pat.length + r.length = s.length := by
  have := stripPre_eq_append h
  simp [this]

theorem splitSub_eq_append {pat : Str} : ∀ {s b a : Str},
    splitSub pat s = some (b, a) → s = b ++ pat ++ a := by
  intro s
  induction s with
  | nil =>
    intro b a h
    simp only [splitSub] at h
    cases hp : stripPre pat [] with
    | none => simp [hp] at h
    | some r =>
      rw [hp] at h
      simp only [Option.some.injEq, Prod.mk.injEq] at h
      obtain ⟨h1, h2⟩ := h
      have h3 := stripPre_eq_append hp
      simp [← h1, ← h2, ← h3]
  | cons c cs ih =>
    intro b a h
    simp only [splitSub] at h
    cases hp : stripPre pat (c :: cs) with
    | some r =>
      rw [hp] at h
      simp only [Option.some.injEq, Prod.mk.injEq] at h
      obtain ⟨h1, h2⟩ := h
      have h3 := stripPre_eq_append hp
      simp [← h1, ← h2, ← h3]
    | none =>
      rw [hp] at h
      simp only [Option.map_eq_some'] at h
      obtain ⟨⟨b', a'⟩, hrec, hba⟩ := h
      simp only [Prod.mk.injEq] at hba
      obtain ⟨h1, h2⟩ := hba
      have h3 := ih hrec
      simp [← h1, ← h2, h3]

theorem splitSub_length {pat s b a : Str} (h : splitSub pat s = some (b, a)) :
    b.length + pat.length + a.length = s.length := by
  have := splitSub_eq_append h
  simp [this]
  omega

theorem length_dropWhile_le (p : Char → Bool) (s : Str) :
    (s.dropWhile p).length ≤ s.length := by
  induction s with
  | nil => simp
  | cons c cs ih =>
    by_cases h : p c
    · simp [List.dropWhile, h]; omega
    · simp [List.dropWhile, h]

theorem stripPre_suffix {pat s r : Str} (h : stripPre pat s = some r) : r <:+ s :=
  ⟨pat, (stripPre_eq_append h).symm⟩

theorem splitSub_suffix {pat s b a : Str} (h : splitSub pat s = some (b, a)) : a <:+ s :=
  ⟨b ++ pat, by rw [← splitSub_eq_append h]⟩

theorem suffix_cons_self (c : Char) (s : Str) : s <:+ c :: s := ⟨[c], rfl⟩

/-! ### Generic `re.sub`-style scanner

`re.sub` (and `re.finditer`) scan left to right, try the pattern at each
position, and on a match emit its replacement (or record the match) and
resume *after* the matched text, never rescanning the replacement.  To
keep the embedding structurally recursive (hence computable by the
kernel), the resumption is implemented by a skip counter over the
original string: skipping `k` characters and continuing is the same as
continuing on `s.drop k` (`scanSub_skip` below). -/

/-- Scan `s`: with skip budget `k+1`, drop a character; with budget 0 try
`step` (state `st`) at the current position — on a match emit its output
and skip the rest of the matched text, on a miss emit `miss c` and
advance one character. -/
def scanSub {α σ : Type} (step : σ → Str → Option (List α × σ × Str))
    (miss : Char → List α) : σ → Nat → Str → List α
  | _, _, [] => []
  | st, k + 1, _ :: cs => scanSub step miss st k cs
  | st, 0, c :: cs =>
    match step st (c :: cs) with
    | some (out, st2, rest) =>
      out ++ scanSub step miss st2 ((c :: cs).length - rest.length - 1) cs
    | none => miss c ++ scanSub step miss st 0 cs

theorem scanSub_skip {α σ : Type} (step : σ → Str → Option (List α × σ × Str))
    (miss : Char → List α) (st : σ) : ∀ (k : Nat) (s : Str),
    scanSub step miss st k s = scanSub step miss st 0 (s.drop k) := by
  intro k
  induction k with
  | zero => intro s; simp
  | succ n ih =>
    intro s
    cases s with
    | nil => simp [scanSub]
    | cons c cs =>
      rw [scanSub, ih]
      simp

theorem scanSub_match {α σ : Type} {step : σ → Str → Option (List α × σ × Str)}
    {miss : Char → List α} {st st2 : σ} {c : Char} {cs out rest : List _}
    (h : step st (c :: cs) = some (out, st2, rest))
    (hsuf : rest <:+ (c :: cs)) (hlt : rest.length < (c :: cs).length) :
    scanSub step miss st 0 (c :: cs) = out ++ scanSub step miss st2 0 rest := by
  obtain ⟨u, hu⟩ := hsuf
  have hred : scanSub step miss st 0 (c :: cs) =
      out ++ scanSub step miss st2 ((c :: cs).length - rest.length - 1) cs := by
    rw [scanSub, h]
  rw [hred, scanSub_skip]
  congr 1
  cases u with
  | nil =>
    rw [List.nil_append] at hu
    rw [hu] at hlt
    exact absurd hlt (lt_irrefl _)
  | cons x xs =>
    have hx : xs ++ rest = cs := by
      have := hu
      rw [List.cons_append] at this
      exact (List.cons.injEq x (xs ++ rest) c cs).mp this |>.2
    have hlen : (c :: cs).length - rest.length - 1 = xs.length := by
      rw [← hx]
      simp only [List.length_cons, List.length_append]
      omega
    rw [hlen, ← hx, List.drop_left]

theorem scanSub_miss {α σ : Type} {step : σ → Str → Option (List α × σ × Str)}
    {miss : Char → List α} {st : σ} {c : Char} {cs : Str}
    (h : step st (c :: cs) = none) :
    scanSub step miss st 0 (c :: cs) = miss c ++ scanSub step miss st 0 cs := by
  rw [scanSub, h]

/-! ### CSS declaration tokenizer (`_parse_css_declarations`)

The Python function scans a declaration block left to right.  For each
declaration it reads up to the first `:` as the property name, then scans
the value with three pieces of state (inside single quotes, inside double
quotes, parenthesis nesting depth); a `\` skips the following character
unconditionally, and a `;` terminates only outside quotes at depth 0.
`scanValue` embeds the value-scanning loop (returning the value text and
the unconsumed rest, the rest beginning at the terminating `;` if any);
`declScan` embeds the outer loop, yielding every `(name, value)` pair the
loop computes, and `parse_css_declarations` keeps — exactly as the source
does — only properties whose name starts with `--`, later writes winning. -/

/-- Embedding of the value-scanning loop of `_parse_css_declarations`. -/
def scanValue : Str → Bool → Bool → Int → Str × Str
  | [], _, _, _ => ([], [])
  | c :: cs, sq, dq, pd =>
    if c = '\\' then
      match cs with
      | [] => ([c], [])
      | c2 :: cs2 =>
        let p := scanValue cs2 sq dq pd
        (c :: c2 :: p.1, p.2)
    else if sq then
      let p := scanValue cs (if c = squote then false else sq) dq pd
      (c :: p.1, p.2)
    else if dq then
      let p := scanValue cs sq (if c = '"' then false else dq) pd
      (c :: p.1, p.2)
    else if c = squote then
      let p := scanValue cs true dq pd
      (c :: p.1, p.2)
    else if c = '"' then
      let p := scanValue cs sq true pd
      (c :: p.1, p.2)
    else if c = '(' then
      let p := scanValue cs sq dq (pd + 1)
      (c :: p.1, p.2)
    else if c = ')' then
      let p := scanValue cs sq dq (max 0 (pd - 1))
      (c :: p.1, p.2)
    else if c = ';' && pd == 0 then
      ([], c :: cs)
    else
      let p := scanValue cs sq dq pd
      (c :: p.1, p.2)

theorem squote_ne_bs : squote ≠ '\\' := by decide

theorem dq_ne_squote : '"' ≠ squote := by decide

theorem lp_ne_squote : '(' ≠ squote := by decide

theorem rp_ne_squote : ')' ≠ squote := by decide

theorem semi_ne_squote : ';' ≠ squote := by decide

/-- No character is lost by the value scan: value ++ rest is the input. -/
theorem scanValue_append (s : Str) (sq dq : Bool) (pd : Int) :
    (scanValue s sq dq pd).1 ++ (scanValue s sq dq pd).2 = s := by
  induction s, sq, dq, pd using scanValue.induct <;>
    rw [scanValue.eq_def] <;>
    (try simp_all [squote_ne_bs, dq_ne_squote, lp_ne_squote, rp_ne_squote,
      semi_ne_squote, not_and])
  rw [if_neg (by rw [not_and]; assumption)]
  simp_all

theorem scanValue_rest_le (s : Str) (sq dq : Bool) (pd : Int) :
    (scanValue s sq dq pd).2.length ≤ s.length := by
  conv_rhs => rw [← scanValue_append s sq dq pd]
  simp

/-- One iteration of the outer loop of `_parse_css_declarations`: skip
whitespace; at end of input stop (`none`); skip a `/* ... */` comment
(emitting nothing, an unterminated comment stops the loop); otherwise
read up to the first `:` as the property name, scan the value, and emit
the `(name, value)` pair, resuming after the terminating `;`.  The
result is `some (optional emitted pair, rest of the input)`. -/
def declStep (s : Str) : Option (Option (Str × Str) × Str) :=
  match s.dropWhile srcWs with
  | [] => none
  | c1 :: cs1 =>
    if (stripPre ['/', '*'] (c1 :: cs1)).isSome then
      match splitSub ['*', '/'] ((c1 :: cs1).drop 2) with
      | some p => some (none, p.2)
      | none => none
    else
      match (c1 :: cs1).dropWhile (fun c => c ≠ ':') with
      | [] => none
      | _ :: afterColon =>
        let pv := scanValue afterColon false false 0
        some (some (pyStrip ((c1 :: cs1).takeWhile (fun c => c ≠ ':')), pyStrip pv.1),
          pv.2.drop 1)

theorem declStep_spec {s : Str} {op : Option (Str × Str)} {rest : Str}
    (h : declStep s = some (op, rest)) : rest <:+ s ∧ rest.length < s.length := by
  unfold declStep at h
  have hsufd : s.dropWhile srcWs <:+ s := List.dropWhile_suffix _
  have hlend : (s.dropWhile srcWs).length ≤ s.length := length_dropWhile_le _ _
  split at h
  · cases h
  · rename_i c1 cs1 h1
    rw [h1] at hsufd hlend
    split at h
    · split at h
      · rename_i p h3
        simp only [Option.some.injEq, Prod.mk.injEq] at h
        obtain ⟨-, hr⟩ := h
        subst hr
        obtain ⟨b, a⟩ := p
        have hsuf2 : a <:+ (c1 :: cs1).drop 2 := splitSub_suffix h3
        have hlen2 := splitSub_length h3
        have hdl : (c1 :: cs1).drop 2 <:+ (c1 :: cs1) := List.drop_suffix _ _
        refine ⟨(hsuf2.trans hdl).trans hsufd, ?_⟩
        have : ((c1 :: cs1).drop 2).length = cs1.length - 1 := by simp
        simp only [List.length] at hlen2 ⊢
        simp only [this] at hlen2
        simp only [List.length_cons] at hlend
        omega
      · cases h
    · rename_i hcomment
      split at h
      · cases h
      · rename_i c2 afterColon h4
        simp only [Option.some.injEq, Prod.mk.injEq] at h
        obtain ⟨-, hr⟩ := h
        subst hr
        have hv := scanValue_append afterColon false false 0
        have hsv : (scanValue afterColon false false 0).2 <:+ afterColon :=
          ⟨(scanValue afterColon false false 0).1, hv⟩
        have hsc : afterColon <:+ (c1 :: cs1) := by
          have : c2 :: afterColon <:+ (c1 :: cs1) := h4 ▸ List.dropWhile_suffix _
          exact (suffix_cons_self c2 afterColon).trans this
        have hd1 : (scanValue afterColon false false 0).2.drop 1 <:+
            (scanValue afterColon false false 0).2 := List.drop_suffix _ _
        refine ⟨((hd1.trans hsv).trans hsc).trans hsufd, ?_⟩
        have l1 : (scanValue afterColon false false 0).2.length ≤ afterColon.length :=
          scanValue_rest_le _ _ _ _
        have l2 : afterColon.length + 1 ≤ cs1.length + 1 := by
          have := length_dropWhile_le (fun c => c ≠ ':') (c1 :: cs1)
          rw [h4] at this
          simpa using this
        simp only [List.length_cons] at hlend ⊢
        simp only [List.length_drop]
        omega

/-- The outer loop of `_parse_css_declarations` as a skip-counter scan. -/
def declScanGo : Nat → Str → List (Str × Str)
  | _, [] => []
  | k + 1, _ :: cs => declScanGo k cs
  | 0, c :: cs =>
    match declStep (c :: cs) with
    | none => []
    | some (op, rest) => op.toList ++ declScanGo ((c :: cs).length - rest.length - 1) cs

theorem declScanGo_skip : ∀ (k : Nat) (s : Str),
    declScanGo k s = declScanGo 0 (s.drop k) := by
  intro k
  induction k with
  | zero => intro s; simp
  | succ n ih =>
    intro s
    cases s with
    | nil => simp [declScanGo]
    | cons c cs =>
      rw [declScanGo, ih]
      simp

/-- Embedding of the outer declaration loop: yields every
`(property, value)` pair the Python loop computes, in scan order. -/
def declScan (s : Str) : List (Str × Str) := declScanGo 0 s

/-- The loop unfolds exactly as the Python `while` does: stop, or emit
the step's pair (if any) and continue on the unconsumed rest. -/
theorem declScan_eq (s : Str) : declScan s =
    match declStep s with
    | none => []
    | some (op, rest) => op.toList ++ declScan rest := by
  cases s with
  | nil => rfl
  | cons c cs =>
    cases h : declStep (c :: cs) with
    | none =>
      show declScanGo 0 (c :: cs) = _
      rw [declScanGo, h]
    | some p =>
      obtain ⟨op, rest⟩ := p
      obtain ⟨hsuf, hlt⟩ := declStep_spec h
      obtain ⟨u, hu⟩ := hsuf
      have hred : declScanGo 0 (c :: cs) =
          op.toList ++ declScanGo ((c :: cs).length - rest.length - 1) cs := by
        rw [declScanGo, h]
      show declScanGo 0 (c :: cs) = _
      rw [hred, declScanGo_skip]
      congr 1
      cases u with
      | nil =>
        rw [List.nil_append] at hu
        rw [hu] at hlt
        exact absurd hlt (lt_irrefl _)
      | cons x xs =>
        have hx : xs ++ rest = cs := by
          have := hu
          rw [List.cons_append] at this
          exact (List.cons.injEq x (xs ++ rest) c cs).mp this |>.2
        have hlen : (c :: cs).length - rest.length - 1 = xs.length := by
          rw [← hx]
          simp only [List.length_cons, List.length_append]
          omega
        rw [hlen, ← hx, List.drop_left]
        rfl

/-- Insert-or-overwrite into an association list, preserving the position
of an existing key (Python `dict` update semantics). -/
def dictInsert (k v : Str) : List (Str × Str) → List (Str × Str)
  | [] => [(k, v)]
  | (k', v') :: t => if k' = k then (k', v) :: t else (k', v') :: dictInsert k v t

/-- Embedding of `_parse_css_declarations`: scan all declarations and keep
only custom properties (names starting `--`), later values overwriting. -/
def parse_css_declarations (block : Str) : List (Str × Str) :=
  (declScan block).foldl
    (fun d nv => if (stripPre ['-', '-'] nv.1).isSome then dictInsert nv.1 nv.2 d else d) []

/-! ### CSS variable resolver (`resolve_css_variables`)

The Python function finds the first `:root\s*{([^}]+)}` match, tokenizes
its body into a variable table, runs up to 5 substitution passes over the
table (`re.sub(r'var\((--[\w-]+)\)', ...)` with the table's current
values, stopping early when a pass changes nothing), substitutes the
final table throughout the whole document, and removes the first
`:root\s*{[^}]+}` match of the substituted document. -/

/-- A `[\w-]` character of the `var\((--[\w-]+)\)` pattern
(`\w` is `[A-Za-z0-9_]` for the ASCII CSS at hand). -/
def isWordHy (c : Char) : Bool := c.isAlphanum || c = '_' || c = '-'

/-- Match the regex `var\((--[\w-]+)\)` at the start of `s`: returns the
captured name (with its `--`) and the rest after the closing paren. -/
def varMatchAt (s : Str) : Option (Str × Str) :=
  match stripPre ['v', 'a', 'r', '('] s with
  | none => none
  | some a1 =>
    match stripPre ['-', '-'] a1 with
    | none => none
    | some a2 =>
      let run := a2.takeWhile isWordHy
      if run.isEmpty then none
      else
        match a2.dropWhile isWordHy with
        | ')' :: rest => some ('-' :: '-' :: run, rest)
        | _ => none

theorem takeWhile_append_dropWhile (p : Char → Bool) (s : Str) :
    s.takeWhile p ++ s.dropWhile p = s := by
  rw [List.takeWhile_append_dropWhile]

theorem varMatchAt_rest_lt {s name rest : Str} (h : varMatchAt s = some (name, rest)) :
    rest.length < s.length := by
  unfold varMatchAt at h
  split at h
  · cases h
  · rename_i a1 h1
    split at h
    · cases h
    · rename_i a2 h2
      dsimp only at h
      split at h
      · cases h
      · rename_i hrun
        split at h
        · rename_i rest' h3
          simp only [Option.some.injEq, Prod.mk.injEq] at h
          have e1 := stripPre_length h1
          have e2 := stripPre_length h2
          have e3 : (a2.dropWhile isWordHy).length ≤ a2.length :=
            length_dropWhile_le _ _
          rw [h3] at e3
          simp only [List.length_cons] at e3
          simp only [List.length] at e1 e2
          obtain ⟨-, hr⟩ := h
          subst hr
          omega
        · cases h

theorem varMatchAt_suffix {s name rest : Str} (h : varMatchAt s = some (name, rest)) :
    rest <:+ s := by
  unfold varMatchAt at h
  split at h
  · cases h
  · rename_i a1 h1
    split at h
    · cases h
    · rename_i a2 h2
      dsimp only at h
      split at h
      · cases h
      · split at h
        · rename_i rest' h3
          simp only [Option.some.injEq, Prod.mk.injEq] at h
          obtain ⟨-, hr⟩ := h
          subst hr
          have s3 : ')' :: rest' <:+ a2 := h3 ▸ List.dropWhile_suffix _
          have s4 : rest' <:+ ')' :: rest' := suffix_cons_self _ _
          exact ((s4.trans s3).trans (stripPre_suffix h2)).trans (stripPre_suffix h1)
        · cases h

/-- The replacement text of the `var(...)` substitution: the table's
value when the name is known, else the untouched match text. -/
def varRepl (table : List (Str × Str)) (name : Str) : Str :=
  match table.lookup name with
  | some v => v
  | none => ['v', 'a', 'r', '('] ++ name ++ [')']

/-- Embedding of one `re.sub(r'var\((--[\w-]+)\)', repl, value)` call,
replacing each (non-overlapping, leftmost) reference by the table's value
when the name is known and leaving the reference text otherwise. -/
def varSub (table : List (Str × Str)) (s : Str) : Str :=
  scanSub (fun _ t => (varMatchAt t).map (fun nr => (varRepl table nr.1, (), nr.2)))
    (fun c => [c]) () 0 s

theorem varSub_cons_match {table : List (Str × Str)} {c : Char} {cs name rest : Str}
    (h : varMatchAt (c :: cs) = some (name, rest)) :
    varSub table (c :: cs) = varRepl table name ++ varSub table rest :=
  scanSub_match (by simp [h]) (varMatchAt_suffix h) (varMatchAt_rest_lt h)

theorem varSub_cons_miss {table : List (Str × Str)} {c : Char} {cs : Str}
    (h : varMatchAt (c :: cs) = none) :
    varSub table (c :: cs) = c :: varSub table cs :=
  scanSub_miss (by simp [h])

/-- One resolution pass: visit every key in order, substituting the
table's current values into that key's value; the flag records whether
any value changed (Python's `changed`). -/
def passStep (ks : List Str) (t : List (Str × Str)) : List (Str × Str) × Bool :=
  match ks with
  | [] => (t, false)
  | k :: rest =>
    match t.lookup k with
    | none => passStep rest t
    | some v =>
      let r := varSub t v
      if r = v then passStep rest t
      else ((passStep rest (dictInsert k r t)).1, true)

/-- The `for _ in range(5)` resolution loop with its early `break`. -/
def passLoop : Nat → List (Str × Str) → List (Str × Str)
  | 0, t => t
  | n + 1, t =>
    let s := passStep (t.map Prod.fst) t
    if s.2 then passLoop n s.1 else s.1

/-- Match `:root\s*\{([^}]+)\}` at the start of `s`: returns the captured
block body and the rest after the closing brace. -/
def rootMatchAt (s : Str) : Option (Str × Str) :=
  match stripPre [':', 'r', 'o', 'o', 't'] s with
  | none => none
  | some a1 =>
    match a1.dropWhile pyWs with
    | [] => none
    | c :: a2 =>
      if c = lbrace then
        let blk := a2.takeWhile (fun x => x ≠ rbrace)
        if blk.isEmpty then none
        else
          match a2.dropWhile (fun x => x ≠ rbrace) with
          | _ :: rest => some (blk, rest)
          | [] => none
      else none

/-- `re.search(r':root\s*\{([^}]+)\}', css)`: leftmost match, returning
the text before the match, the captured block and the text after. -/
def rootSearch : Str → Option (Str × Str × Str)
  | [] => none
  | c :: cs =>
    match rootMatchAt (c :: cs) with
    | some br => some ([], br.1, br.2)
    | none => (rootSearch cs).map (fun p => (c :: p.1, p.2.1, p.2.2))

/-- `re.sub(r':root\s*\{[^}]+\}', '', css, count=1)`: remove the first
`:root` block match, if any. -/
def rootRemove (s : Str) : Str :=
  match rootSearch s with
  | some p => p.1 ++ p.2.2
  | none => s

/-- Embedding of `resolve_css_variables`. -/
def resolve_css_variables (css : Str) : Str :=
  match rootSearch css with
  | none => css
  | some p =>
    let vars := parse_css_declarations p.2.1
    let vars2 := passLoop 5 vars
    rootRemove (varSub vars2 css)

/-! ### Pseudo-rule extractor (`_extract_pseudo_rules`)

`re.finditer(r'([^{}]*(?:::before|::after|:nth-child|:hover|:focus)[^{]*)\{([^}]*)\}', css)`.
A match starting at position `p` exists exactly when one of the five
pseudo literals occurs after `p` with no brace in between, a `{` occurs
later, and a `}` occurs after that `{`; backtracking then fixes group 1
as the text from `p` up to the first `{` and group 2 as the text from
after that `{` up to the first `}`.  `finditer` takes the leftmost match
and continues after its end. -/

/-- The closed set of recognized pseudo-construct literals. -/
def pseudoLits : List Str :=
  [[':', ':', 'b', 'e', 'f', 'o', 'r', 'e'],
   [':', ':', 'a', 'f', 't', 'e', 'r'],
   [':', 'n', 't', 'h', '-', 'c', 'h', 'i', 'l', 'd'],
   [':', 'h', 'o', 'v', 'e', 'r'],
   [':', 'f', 'o', 'c', 'u', 's']]

/-- Does one of the pseudo literals occur at the very start of `s`? -/
def pseudoAt (s : Str) : Bool :=
  pseudoLits.any (fun l => (stripPre l s).isSome)

/-- Does a pseudo literal occur at or after the start of `s`, with no
`{` or `}` before it?  (The `[^{}]*(?:...)` part of the pattern.) -/
def hasPseudoBraceFree : Str → Bool
  | [] => false
  | c :: cs =>
    if c = lbrace || c = rbrace then false
    else pseudoAt (c :: cs) || hasPseudoBraceFree cs

/-- Match the pseudo-rule pattern at the start of `s`: group 1 (selector
text), group 2 (body text) and the rest after the closing brace. -/
def pseudoMatchAt (s : Str) : Option (Str × Str × Str) :=
  if hasPseudoBraceFree s then
    match splitSub [lbrace] s with
    | none => none
    | some g1a =>
      match splitSub [rbrace] g1a.2 with
      | none => none
      | some g2r => some (g1a.1, g2r.1, g2r.2)
  else none

theorem pseudoMatchAt_rest_lt {s g1 g2 rest : Str}
    (h : pseudoMatchAt s = some (g1, g2, rest)) : rest.length < s.length := by
  unfold pseudoMatchAt at h
  split at h
  · split at h
    · cases h
    · rename_i g1a h1
      split at h
      · cases h
      · rename_i g2r h2
        simp only [Option.some.injEq, Prod.mk.injEq] at h
        obtain ⟨e1, e2, e3⟩ := h
        have l1 := splitSub_length h1
        have l2 := splitSub_length h2
        obtain ⟨q1, q2⟩ := g1a
        obtain ⟨r1, r2⟩ := g2r
        simp only [List.length_cons, List.length_nil] at l1 l2
        dsimp only at l1 l2 e3
        subst e3
        omega
  · cases h

theorem pseudoMatchAt_suffix {s g1 g2 rest : Str}
    (h : pseudoMatchAt s = some (g1, g2, rest)) : rest <:+ s := by
  unfold pseudoMatchAt at h
  split at h
  · split at h
    · cases h
    · rename_i g1a h1
      split at h
      · cases h
      · rename_i g2r h2
        simp only [Option.some.injEq, Prod.mk.injEq] at h
        obtain ⟨-, -, hr⟩ := h
        subst hr
        exact (splitSub_suffix h2).trans (splitSub_suffix h1)
  · cases h

/-- The `finditer` scan: all pseudo-rule matches, leftmost first,
resuming after each match's end. -/
def pseudoScan (s : Str) : List (Str × Str) :=
  scanSub (fun _ t => (pseudoMatchAt t).map (fun m => ([(m.1, m.2.1)], (), m.2.2)))
    (fun _ => []) () 0 s

theorem pseudoScan_cons_match {c : Char} {cs g1 g2 rest : Str}
    (h : pseudoMatchAt (c :: cs) = some (g1, g2, rest)) :
    pseudoScan (c :: cs) = (g1, g2) :: pseudoScan rest := by
  have := @scanSub_match (Str × Str) Unit
    (fun _ t => (pseudoMatchAt t).map (fun m => ([(m.1, m.2.1)], (), m.2.2)))
    (fun _ => []) () () c cs [(g1, g2)] rest
    (by simp [h]) (pseudoMatchAt_suffix h) (pseudoMatchAt_rest_lt h)
  simpa [pseudoScan] using this

theorem pseudoScan_cons_miss {c : Char} {cs : Str}
    (h : pseudoMatchAt (c :: cs) = none) : pseudoScan (c :: cs) = pseudoScan cs :=
  scanSub_miss (by simp [h])

/-- Join with newlines (`'\n'.join`). -/
def joinNl : List Str → Str
  | [] => []
  | [x] => x
  | x :: y :: rest => x ++ '\n' :: joinNl (y :: rest)

/-- Embedding of `_extract_pseudo_rules`: emit `selector {body}` for each
match whose stripped body is non-empty. -/
def extract_pseudo_rules (css : Str) : Str :=
  joinNl ((pseudoScan css).filterMap (fun m =>
    let sel := pyStrip m.1
    let body := pyStrip m.2
    if body.isEmpty then none
    else some (sel ++ [' ', lbrace] ++ body ++ [rbrace])))

/-! ### Theme store and orchestration

The module-level theme cache (`_theme_cache`, populated from the themes
directory by `load_themes`) is modelled as an explicit association-list
parameter; the external `css_inline.CSSInliner.inline` call and the
external `markdown.markdown` renderer are function parameters. -/

/-- Embedding of `_get_theme_css`: the requested theme's CSS, else the
`default` theme's, else the empty string. -/
def get_theme_css (cache : List (Str × Str)) (theme_id : Str) : Str :=
  match cache.lookup theme_id with
  | some css => css
  | none =>
    match cache.lookup ("default".data) with
    | some css => css
    | none => []

/-- Embedding of `apply_theme_for_preview`. -/
def apply_theme_for_preview (cache : List (Str × Str)) (html : Str) (theme_id : Str) : Str :=
  ("<style>\n".data) ++ get_theme_css cache theme_id ++ ("\n</style>\n<section id=\"wenyan\">\n".data)
    ++ html ++ ("\n</section>".data)

/-- The list base CSS injected before the theme CSS in publish mode. -/
def list_base_css : Str :=
  ("\n#wenyan ul \x7b list-style: none; padding-left: 2em; margin: 1em 0; \x7d\n"
    ++ "#wenyan ol \x7b list-style: none; padding-left: 2em; margin: 1em 0; \x7d\n"
    ++ "#wenyan li \x7b margin: 0.5em 0; \x7d\n"
    ++ "#wenyan li p \x7b margin: 0; display: inline; \x7d\n").data

/-- The combined CSS handed to the inliner: base list rules first, then
the theme's variable-resolved CSS (so the theme may override them). -/
def publishCombinedCss (cache : List (Str × Str)) (theme_id : Str) : Str :=
  list_base_css ++ resolve_css_variables (get_theme_css cache theme_id)

/-- The full HTML document built around the fragment and handed to the
external inliner (`full_html` in `apply_theme_for_publish`). -/
def publishFullHtml (cache : List (Str × Str)) (theme_id : Str) (html : Str) : Str :=
  ("<html><head><style>".data) ++ publishCombinedCss cache theme_id
    ++ ("</style></head>\n<body><section id=\"wenyan\">".data) ++ html
    ++ ("</section></body></html>".data)

/-- The literal `<section id="wenyan"` opening of the container pattern. -/
def sectionOpenLit : Str := "<section id=\"wenyan\"".data

/-- The literal `</section>`. -/
def sectionCloseLit : Str := "</section>".data

/-- Match `(<section id="wenyan"[^>]*>)(.*?)(</section>)` at the start of
`s`: group 1 (the full opening tag) and group 2 (the contents). -/
def sectionMatchAt (s : Str) : Option (Str × Str) :=
  match stripPre sectionOpenLit s with
  | none => none
  | some a1 =>
    let run := a1.takeWhile (fun c => c ≠ '>')
    match a1.dropWhile (fun c => c ≠ '>') with
    | [] => none
    | _ :: a2 =>
      match splitSub sectionCloseLit a2 with
      | none => none
      | some br => some (sectionOpenLit ++ run ++ ['>'], br.1)

/-- `re.search` for the container pattern: leftmost match's groups. -/
def sectionSearch : Str → Option (Str × Str)
  | [] => none
  | c :: cs =>
    match sectionMatchAt (c :: cs) with
    | some g => some g
    | none => sectionSearch cs

/-- Embedding of `apply_theme_for_publish`, parameterized by the theme
cache and by the external `css_inline` inliner. -/
def apply_theme_for_publish (cache : List (Str × Str)) (inliner : Str → Str)
    (html : Str) (theme_id : Str) : Str :=
  let pseudo_css := extract_pseudo_rules (publishCombinedCss cache theme_id)
  let inlined := inliner (publishFullHtml cache theme_id html)
  let result :=
    match sectionSearch inlined with
    | some g => g.1 ++ g.2 ++ sectionCloseLit
    | none => sectionOpenLit ++ '>' :: html ++ sectionCloseLit
  if (pyStrip pseudo_css).isEmpty then result
  else ("<style>".data) ++ pseudo_css ++ ("</style>\n".data) ++ result

/-! ### List-prefix rewriter (`_inject_list_prefixes`)

Two `re.sub` passes: `(<ul[^>]*>)(.*?)(</ul>)` then `(<ol[^>]*>)(.*?)(</ol>)`
(both DOTALL).  A match runs from a `<ul`/`<ol` to the *first* following
`>` (the open tag) and on to the *first* following close literal; `re.sub`
replaces leftmost non-overlapping matches and resumes after each match.
Inside a match, the open tag has `list-style[^;"]*:[^;"]*;?` occurrences
removed and `list-style:none` forced, and every `<li[^>]*>` in the body
gets a text prefix - a bullet for `ul`, a per-match 1-based counter
for `ol`. -/

/-- Match a regex of shape `lit[^>]*>` at the start of `s`: returns the
whole matched open tag and the rest. -/
def openTagMatchAt (lit : Str) (s : Str) : Option (Str × Str) :=
  match stripPre lit s with
  | none => none
  | some a1 =>
    let run := a1.takeWhile (fun c => c ≠ '>')
    match a1.dropWhile (fun c => c ≠ '>') with
    | [] => none
    | _ :: a2 => some (lit ++ run ++ ['>'], a2)

theorem openTagMatchAt_rest_lt {lit s tag rest : Str} (hlit : lit ≠ [])
    (h : openTagMatchAt lit s = some (tag, rest)) : rest.length < s.length := by
  unfold openTagMatchAt at h
  split at h
  · cases h
  · rename_i a1 h1
    split at h
    · cases h
    · rename_i c a2 h2
      simp only [Option.some.injEq, Prod.mk.injEq] at h
      have l1 := stripPre_length h1
      have l2 : (a1.dropWhile (fun c => c ≠ '>')).length ≤ a1.length :=
        length_dropWhile_le _ _
      rw [h2] at l2
      simp only [List.length_cons] at l2
      obtain ⟨-, hr⟩ := h
      subst hr
      cases lit with
      | nil => exact absurd rfl hlit
      | cons x xs => simp only [List.length] at l1; omega

/-- Match `(lit[^>]*>)(.*?)(closeLit)` at the start of `s`: the open tag,
the (lazy, hence first-close-terminated) body, and the rest. -/
def blockMatchAt (lit closeLit : Str) (s : Str) : Option (Str × Str × Str) :=
  match openTagMatchAt lit s with
  | none => none
  | some tr =>
    match splitSub closeLit tr.2 with
    | none => none
    | some br => some (tr.1, br.1, br.2)

theorem blockMatchAt_rest_lt {lit closeLit s tag body rest : Str} (hlit : lit ≠ [])
    (h : blockMatchAt lit closeLit s = some (tag, body, rest)) :
    rest.length < s.length := by
  unfold blockMatchAt at h
  split at h
  · cases h
  · rename_i tr h1
    split at h
    · cases h
    · rename_i br h2
      simp only [Option.some.injEq, Prod.mk.injEq] at h
      obtain ⟨-, -, hr⟩ := h
      subst hr
      obtain ⟨t, r⟩ := tr
      obtain ⟨b, a⟩ := br
      have l1 := openTagMatchAt_rest_lt hlit h1
      have l2 := splitSub_length h2
      simp only at l1 l2 ⊢
      omega

/-- `re.sub(r'list-style[^;"]*:[^;"]*;?', '', tag)`: remove every
list-style declaration text from the tag. -/
def listStyleMatchAt (s : Str) : Option Str :=
  match stripPre ("list-style".data) s with
  | none => none
  | some a1 =>
    if (a1.takeWhile (fun c => c ≠ ';' && c ≠ '"')).contains ':' then
      match a1.dropWhile (fun c => c ≠ ';' && c ≠ '"') with
      | [] => some []
      | c :: rest => if c = ';' then some rest else some (c :: rest)
    else none

theorem listStyleMatchAt_rest_lt {s rest : Str} (h : listStyleMatchAt s = some rest) :
    rest.length < s.length := by
  unfold listStyleMatchAt at h
  split at h
  · cases h
  · rename_i a1 h1
    have l1 := stripPre_length h1
    simp only [List.length] at l1
    have l2 : (a1.dropWhile (fun c => c ≠ ';' && c ≠ '"')).length ≤ a1.length :=
      length_dropWhile_le _ _
    split at h
    · split at h
      · rename_i h2
        simp only [Option.some.injEq] at h
        subst h
        have h0 : ([] : Str).length = 0 := rfl
        omega
      · rename_i c rest' h2
        rw [h2] at l2
        simp only [List.length_cons] at l2
        split at h <;>
          (simp only [Option.some.injEq] at h; subst h) <;>
          (try simp only [List.length_cons]) <;> omega
    · cases h

theorem listStyleMatchAt_suffix {s rest : Str} (h : listStyleMatchAt s = some rest) :
    rest <:+ s := by
  unfold listStyleMatchAt at h
  split at h
  · cases h
  · rename_i a1 h1
    split at h
    · split at h
      · rename_i h2
        simp only [Option.some.injEq] at h
        subst h
        exact ⟨s, by simp⟩
      · rename_i c rest' h2
        have s1 : c :: rest' <:+ a1 := h2 ▸ List.dropWhile_suffix _
        have s2 : rest' <:+ c :: rest' := suffix_cons_self _ _
        split at h <;> (simp only [Option.some.injEq] at h; subst h)
        · exact (s2.trans s1).trans (stripPre_suffix h1)
        · exact s1.trans (stripPre_suffix h1)
    · cases h

/-- The sub loop for the list-style pattern (replacement is empty). -/
def listStyleStripAll (s : Str) : Str :=
  scanSub (fun _ t => (listStyleMatchAt t).map (fun rest => ([], (), rest)))
    (fun c => [c]) () 0 s

theorem listStyleStripAll_cons_match {c : Char} {cs rest : Str}
    (h : listStyleMatchAt (c :: cs) = some rest) :
    listStyleStripAll (c :: cs) = listStyleStripAll rest := by
  have := @scanSub_match Char Unit
    (fun _ t => (listStyleMatchAt t).map (fun rest => ([], (), rest)))
    (fun c => [c]) () () c cs [] rest
    (by simp [h]) (listStyleMatchAt_suffix h) (listStyleMatchAt_rest_lt h)
  simpa using this

theorem listStyleStripAll_cons_miss {c : Char} {cs : Str}
    (h : listStyleMatchAt (c :: cs) = none) :
    listStyleStripAll (c :: cs) = c :: listStyleStripAll cs :=
  scanSub_miss (by simp [h])

/-- Python `str.replace(pat, new)` (all occurrences, no rescan of `new`);
`pat` is nonempty at both use sites. -/
def replaceAll (pat new : Str) (s : Str) : Str :=
  scanSub (fun _ t =>
      if pat.isEmpty then none
      else (stripPre pat t).map (fun rest => (new, (), rest)))
    (fun c => [c]) () 0 s

theorem replaceAll_cons_match {pat new : Str} {c : Char} {cs rest : Str}
    (hp : pat ≠ []) (h : stripPre pat (c :: cs) = some rest) :
    replaceAll pat new (c :: cs) = new ++ replaceAll pat new rest := by
  refine scanSub_match ?_ (stripPre_suffix h) ?_
  · simp only [List.isEmpty_iff, hp, if_neg, h]
    rfl
  · have := stripPre_length h
    cases pat with
    | nil => exact absurd rfl hp
    | cons x xs => simp only [List.length] at this ⊢; omega

theorem replaceAll_cons_miss {pat new : Str} {c : Char} {cs : Str}
    (h : stripPre pat (c :: cs) = none) :
    replaceAll pat new (c :: cs) = c :: replaceAll pat new cs := by
  refine scanSub_miss ?_
  simp only [h]
  split <;> rfl

/-- Python `str.replace(pat, new, 1)` (first occurrence only). -/
def replaceFirst (pat new : Str) (s : Str) : Str :=
  match splitSub pat s with
  | some p => p.1 ++ new ++ p.2
  | none => s

/-- The `style="` literal. -/
def styleQuoteLit : Str := "style=\"".data

/-- The `list-style:none;` declaration text inserted by the rewriter. -/
def listStyleNoneLit : Str := "list-style:none;".data

/-- The common tag rewrite of `replace_ul`/`replace_ol`: strip native
list-style declarations, then force `list-style:none` into the style
attribute (creating one if the tag has none). -/
def forceListStyleNone (tag : Str) : Str :=
  let t := listStyleStripAll tag
  if containsSub styleQuoteLit t then
    replaceAll styleQuoteLit (styleQuoteLit ++ listStyleNoneLit) t
  else
    replaceFirst ['>'] (' ' :: styleQuoteLit ++ listStyleNoneLit ++ ['"', '>']) t

theorem openTagMatchAt_suffix {lit s tag rest : Str}
    (h : openTagMatchAt lit s = some (tag, rest)) : rest <:+ s := by
  unfold openTagMatchAt at h
  split at h
  · cases h
  · rename_i a1 h1
    split at h
    · cases h
    · rename_i c a2 h2
      simp only [Option.some.injEq, Prod.mk.injEq] at h
      obtain ⟨-, hr⟩ := h
      subst hr
      have s1 : c :: a2 <:+ a1 := h2 ▸ List.dropWhile_suffix _
      have s2 : a2 <:+ c :: a2 := suffix_cons_self _ _
      exact (s2.trans s1).trans (stripPre_suffix h1)

/-- `re.sub(r'(<li[^>]*>)', r'\1• ', body)`: prepend a bullet to every
list item's content. -/
def liBulletSub (s : Str) : Str :=
  scanSub (fun _ t => (openTagMatchAt ("<li".data) t).map
      (fun tr => (tr.1 ++ ['•', ' '], (), tr.2)))
    (fun c => [c]) () 0 s

theorem liBulletSub_cons_match {c : Char} {cs tag rest : Str}
    (h : openTagMatchAt ("<li".data) (c :: cs) = some (tag, rest)) :
    liBulletSub (c :: cs) = tag ++ '•' :: ' ' :: liBulletSub rest := by
  have := @scanSub_match Char Unit
    (fun _ t => (openTagMatchAt ("<li".data) t).map
      (fun tr => (tr.1 ++ ['•', ' '], (), tr.2)))
    (fun c => [c]) () () c cs (tag ++ ['•', ' ']) rest
    (by simp [h]) (openTagMatchAt_suffix h) (openTagMatchAt_rest_lt (by decide) h)
  simpa [liBulletSub] using this

theorem liBulletSub_cons_miss {c : Char} {cs : Str}
    (h : openTagMatchAt ("<li".data) (c :: cs) = none) :
    liBulletSub (c :: cs) = c :: liBulletSub cs :=
  scanSub_miss (by simp [h])

/-- The decimal numeral of `n` followed by `. `
(the `f'{counter[0]}. '` prefix text). -/
def numDotSpace (n : Nat) : Str := (Nat.repr n).data ++ ['.', ' ']

/-- The stateful `re.sub(r'(<li[^>]*>)', add_number, body)` loop:
the counter state is incremented before each use. -/
def liNumberSub (n : Nat) (s : Str) : Str :=
  scanSub (fun k t => (openTagMatchAt ("<li".data) t).map
      (fun tr => (tr.1 ++ numDotSpace (k + 1), k + 1, tr.2)))
    (fun c => [c]) n 0 s

theorem liNumberSub_cons_match {n : Nat} {c : Char} {cs tag rest : Str}
    (h : openTagMatchAt ("<li".data) (c :: cs) = some (tag, rest)) :
    liNumberSub n (c :: cs) = tag ++ numDotSpace (n + 1) ++ liNumberSub (n + 1) rest := by
  have := @scanSub_match Char Nat
    (fun k t => (openTagMatchAt ("<li".data) t).map
      (fun tr => (tr.1 ++ numDotSpace (k + 1), k + 1, tr.2)))
    (fun c => [c]) n (n + 1) c cs (tag ++ numDotSpace (n + 1)) rest
    (by simp [h]) (openTagMatchAt_suffix h) (openTagMatchAt_rest_lt (by decide) h)
  simpa [liNumberSub] using this

theorem liNumberSub_cons_miss {n : Nat} {c : Char} {cs : Str}
    (h : openTagMatchAt ("<li".data) (c :: cs) = none) :
    liNumberSub n (c :: cs) = c :: liNumberSub n cs :=
  scanSub_miss (by simp [h])

/-- `replace_ul` applied to a match's groups. -/
def replaceUl (tag body : Str) : Str :=
  forceListStyleNone tag ++ liBulletSub body ++ ("</ul>".data)

/-- `replace_ol` applied to a match's groups (counter starts at 0). -/
def replaceOl (tag body : Str) : Str :=
  forceListStyleNone tag ++ liNumberSub 0 body ++ ("</ol>".data)

theorem blockMatchAt_suffix {lit closeLit s tag body rest : Str}
    (h : blockMatchAt lit closeLit s = some (tag, body, rest)) : rest <:+ s := by
  unfold blockMatchAt at h
  split at h
  · cases h
  · rename_i tr h1
    split at h
    · cases h
    · rename_i br h2
      simp only [Option.some.injEq, Prod.mk.injEq] at h
      obtain ⟨-, -, hr⟩ := h
      subst hr
      exact (splitSub_suffix h2).trans (openTagMatchAt_suffix h1)

/-- The `re.sub((<ul[^>]*>)(.*?)(</ul>), replace_ul, html)` pass. -/
def ulSub (s : Str) : Str :=
  scanSub (fun _ t => (blockMatchAt ("<ul".data) ("</ul>".data) t).map
      (fun m => (replaceUl m.1 m.2.1, (), m.2.2)))
    (fun c => [c]) () 0 s

theorem ulSub_cons_match {c : Char} {cs tag body rest : Str}
    (h : blockMatchAt ("<ul".data) ("</ul>".data) (c :: cs) = some (tag, body, rest)) :
    ulSub (c :: cs) = replaceUl tag body ++ ulSub rest :=
  scanSub_match (by simp [h]) (blockMatchAt_suffix h)
    (blockMatchAt_rest_lt (by decide) h)

theorem ulSub_cons_miss {c : Char} {cs : Str}
    (h : blockMatchAt ("<ul".data) ("</ul>".data) (c :: cs) = none) :
    ulSub (c :: cs) = c :: ulSub cs :=
  scanSub_miss (by simp [h])

/-- The `re.sub((<ol[^>]*>)(.*?)(</ol>), replace_ol, html)` pass. -/
def olSub (s : Str) : Str :=
  scanSub (fun _ t => (blockMatchAt ("<ol".data) ("</ol>".data) t).map
      (fun m => (replaceOl m.1 m.2.1, (), m.2.2)))
    (fun c => [c]) () 0 s

theorem olSub_cons_match {c : Char} {cs tag body rest : Str}
    (h : blockMatchAt ("<ol".data) ("</ol>".data) (c :: cs) = some (tag, body, rest)) :
    olSub (c :: cs) = replaceOl tag body ++ olSub rest :=
  scanSub_match (by simp [h]) (blockMatchAt_suffix h)
    (blockMatchAt_rest_lt (by decide) h)

theorem olSub_cons_miss {c : Char} {cs : Str}
    (h : blockMatchAt ("<ol".data) ("</ol>".data) (c :: cs) = none) :
    olSub (c :: cs) = c :: olSub cs :=
  scanSub_miss (by simp [h])

/-- Embedding of `_inject_list_prefixes`: the `ul` pass, then the `ol`
pass. -/
def inject_list_prefixes (html : Str) : Str := olSub (ulSub html)

/-- Embedding of `markdown_to_wechat_html`, with the external Markdown
renderer an explicit function parameter. -/
def markdown_to_wechat_html (cache : List (Str × Str)) (inliner : Str → Str)
    (md_to_html : Str → Str) (md : Str) (theme_id : Str) : Str :=
  inject_list_prefixes (apply_theme_for_publish cache inliner (md_to_html md) theme_id)

/-! ### General lemmas used by several claims -/

theorem stripPre_append_self (pat v : Str) : stripPre pat (pat ++ v) = some v := by
  induction pat with
  | nil => simp [stripPre]
  | cons p ps ih => simp [stripPre, ih]

theorem containsSub_cons {pat cs : Str} (c : Char) (h : containsSub pat cs = true) :
    containsSub pat (c :: cs) = true := by
  simp only [containsSub] at h ⊢
  rw [splitSub]
  cases hp : stripPre pat (c :: cs) with
  | some r => simp
  | none =>
    cases hs : splitSub pat cs with
    | none => rw [hs] at h; simp at h
    | some p => simp

theorem containsSub_self_append (pat v : Str) : containsSub pat (pat ++ v) = true := by
  simp only [containsSub]
  cases hv : pat ++ v with
  | nil =>
    cases pat with
    | nil => simp [splitSub, stripPre]
    | cons _ _ => simp at hv
  | cons c cs =>
    have h := stripPre_append_self pat v
    rw [hv] at h
    rw [splitSub, h]
    simp

theorem containsSub_append_self (pat u v : Str) :
    containsSub pat (u ++ pat ++ v) = true := by
  induction u with
  | nil => simpa using containsSub_self_append pat v
  | cons c cs ih => exact containsSub_cons c ih

theorem splitSub_none_of_cons {pat : Str} {c : Char} {cs : Str}
    (h : splitSub pat (c :: cs) = none) :
    stripPre pat (c :: cs) = none ∧ splitSub pat cs = none := by
  rw [splitSub] at h
  cases hp : stripPre pat (c :: cs) with
  | some r => rw [hp] at h; cases h
  | none =>
    rw [hp] at h
    cases hs : splitSub pat cs with
    | none => exact ⟨rfl, rfl⟩
    | some p => rw [hs] at h; cases h

theorem replaceAll_splitSub (pat new : Str) (hp : pat ≠ []) : ∀ s : Str,
    replaceAll pat new s =
      match splitSub pat s with
      | some p => p.1 ++ new ++ replaceAll pat new p.2
      | none => s := by
  intro s
  induction s with
  | nil =>
    cases pat with
    | nil => exact absurd rfl hp
    | cons p ps => simp [replaceAll, scanSub, splitSub, stripPre]
  | cons c cs ih =>
    cases h1 : stripPre pat (c :: cs) with
    | some rest =>
      rw [replaceAll_cons_match hp h1]
      have hsp : splitSub pat (c :: cs) = some ([], rest) := by rw [splitSub, h1]
      rw [hsp]
      simp
    | none =>
      rw [replaceAll_cons_miss h1]
      have hsp : splitSub pat (c :: cs) =
          (splitSub pat cs).map (fun p => (c :: p.1, p.2)) := by rw [splitSub, h1]
      rw [hsp]
      cases h2 : splitSub pat cs with
      | none =>
        rw [ih, h2]
        simp
      | some p =>
        rw [ih, h2]
        simp

/-! ### Claim C4 — tokenizer: semicolons in quotes/parens, escapes -/

/-- C4: the CSS declaration tokenizer ends a declaration at `;` only when
it is outside single quotes, outside double quotes, and at parenthesis
depth zero (the scanned value is empty at a terminating `;`, and only
then); a backslash escapes the following character unconditionally; the
declaration `background: url("a;b.png");` scans to the intact value
`url("a;b.png")`, and in `content: "\";"` the escaped quote does not end
the in-string state (the `;` stays inside the value). -/
theorem C4_tokenizer_semicolon_and_escape :
    (∀ (cs : Str) (sq dq : Bool) (pd : Int),
      (scanValue (';' :: cs) sq dq pd).1 = [] ↔ (sq = false ∧ dq = false ∧ pd = 0)) ∧
    (∀ (c : Char) (cs : Str) (sq dq : Bool) (pd : Int),
      scanValue ('\\' :: c :: cs) sq dq pd =
        ('\\' :: c :: (scanValue cs sq dq pd).1, (scanValue cs sq dq pd).2)) ∧
    declScan ("background: url(\"a;b.png\");".data) =
      [("background".data, "url(\"a;b.png\")".data)] ∧
    declScan ("content: \"\\\";\"".data) = [("content".data, "\"\\\";\"".data)] := by
  refine ⟨?_, ?_, by decide, by decide⟩
  · intro cs sq dq pd
    rw [scanValue.eq_def]
    simp only [semi_ne_squote, if_neg (by decide : ¬(';' : Char) = '\\')]
    constructor
    · intro h
      by_cases hsq : sq
      · simp [hsq] at h
      · by_cases hdq : dq
        · simp [hsq, hdq] at h
        · by_cases hpd : pd = 0
          · exact ⟨by simpa using hsq, by simpa using hdq, hpd⟩
          · simp [hsq, hdq, hpd, semi_ne_squote] at h
    · rintro ⟨hsq, hdq, hpd⟩
      simp [hsq, hdq, hpd, semi_ne_squote]
  · intro c cs sq dq pd
    rw [scanValue.eq_def]
    simp

/-! ### Claim C9 — tokenizer totality and safety -/

/-- C9: the declaration tokenizer is total and safe: the value scan loses
no characters (value ++ rest is exactly the input, so the scan index
advances over the input and the function terminates on every input — the
embedding is a total function); an unmatched `)` clamps the nesting depth
at `max 0 (pd - 1)`, never negative, so a following top-level `;` still
terminates (shown both in general and on `--x: a)b; --y: c`); an
unterminated comment consumes to end-of-input and yields nothing; an
unterminated quoted string and a trailing backslash consume to
end-of-input inside the value. -/
theorem C9_tokenizer_total_and_safe :
    (∀ (s : Str) (sq dq : Bool) (pd : Int),
      (scanValue s sq dq pd).1 ++ (scanValue s sq dq pd).2 = s) ∧
    (∀ (cs : Str) (pd : Int),
      scanValue (')' :: cs) false false pd =
        (')' :: (scanValue cs false false (max 0 (pd - 1))).1,
          (scanValue cs false false (max 0 (pd - 1))).2) ∧ 0 ≤ max 0 (pd - 1)) ∧
    declScan ("--x: a)b; --y: c".data) =
      [("--x".data, "a)b".data), ("--y".data, "c".data)] ∧
    (∀ s : Str, splitSub ['*', '/'] s = none → declScan ('/' :: '*' :: s) = []) ∧
    parse_css_declarations ("--a: \"x;y".data) = [("--a".data, "\"x;y".data)] ∧
    parse_css_declarations ("--a: x\\".data) = [("--a".data, "x\\".data)] := by
  refine ⟨scanValue_append, ?_, by decide, ?_, by decide, by decide⟩
  · intro cs pd
    constructor
    · rw [scanValue.eq_def]
      simp [rp_ne_squote]
    · exact le_max_left 0 (pd - 1)
  · intro s hnone
    have hstep : declStep ('/' :: '*' :: s) = none := by
      simp [declStep, srcWs, stripPre, hnone]
    rw [declScan_eq, hstep]

/-- Witness for C9 at concrete inputs. -/
theorem C9_witness :
    splitSub ['*', '/'] ("no close".data) = none ∧
    declScan ('/' :: '*' :: ("no close".data)) = [] := by
  have h := (C9_tokenizer_total_and_safe.2.2.2.1) ("no close".data) (by decide)
  exact ⟨by decide, h⟩

/-! ### Claim C5 — variable resolution: pass cap and termination -/

theorem passStep_unchanged : ∀ (ks : List Str) (t : List (Str × Str)),
    (passStep ks t).2 = false → (passStep ks t).1 = t := by
  intro ks
  induction ks with
  | nil => intro t _; rfl
  | cons k rest ih =>
    intro t h
    rw [passStep] at h ⊢
    cases hl : t.lookup k with
    | none =>
      rw [hl] at h
      dsimp only at h ⊢
      exact ih t h
    | some v =>
      rw [hl] at h
      dsimp only at h ⊢
      by_cases hr : varSub t v = v
      · rw [if_pos hr] at h ⊢
        exact ih t h
      · rw [if_neg hr] at h
        simp at h

theorem passLoop_early_stop (n : Nat) (t : List (Str × Str))
    (h : (passStep (t.map Prod.fst) t).2 = false) : passLoop (n + 1) t = t := by
  rw [passLoop]
  simp only [h, Bool.false_eq_true, if_false]
  exact passStep_unchanged _ _ h

/-- A variable chain of depth 34 declared deepest-first, deeper than the
5-pass cap can fully resolve. -/
def chainCss : Str :=
  (":root".data) ++ [lbrace]
    ++ (List.range 33).reverse.foldr (fun k acc =>
        ("--v".data) ++ (Nat.repr (k + 1)).data ++ (": var(--v".data) ++ (Nat.repr k).data
          ++ (");".data) ++ acc) []
    ++ ("--v0: x;".data) ++ [rbrace] ++ (" div".data) ++ [lbrace]
    ++ ("color:var(--v33);".data) ++ [rbrace]

/-- C5: variable resolution runs its substitution loop at most 5 passes
(the literal cap in `resolve_css_variables`) and stops early once a pass
makes no substitution (a substitution-free pass leaves the table
unchanged and exits the loop no matter how much fuel remains); it is a
total function that never loops or raises: a direct self-reference
(`--a: var(--a)`) leaves the literal `var(--a)` in the output, and a
34-deep dependency chain, too deep for 5 passes, leaves a literal
`var(--v1)` reference unresolved in the output. -/
theorem C5_resolution_pass_cap_terminates :
    (∀ (css : Str) (p : Str × Str × Str), rootSearch css = some p →
      resolve_css_variables css =
        rootRemove (varSub (passLoop 5 (parse_css_declarations p.2.1)) css)) ∧
    (∀ (ks : List Str) (t : List (Str × Str)),
      (passStep ks t).2 = false → (passStep ks t).1 = t) ∧
    (∀ (n : Nat) (t : List (Str × Str)),
      (passStep (t.map Prod.fst) t).2 = false → passLoop (n + 1) t = t) ∧
    resolve_css_variables (":root\x7b--a: var(--a);\x7d p\x7bcolor:var(--a);\x7d".data) =
      (" p\x7bcolor:var(--a);\x7d".data) ∧
    containsSub ("var(--v1)".data) (resolve_css_variables chainCss) = true := by
  refine ⟨?_, passStep_unchanged, passLoop_early_stop, by decide, by decide⟩
  intro css p h
  rw [resolve_css_variables, h]

/-- Witness for C5 at concrete inputs. -/
theorem C5_witness :
    rootSearch (":root\x7b--a:1;\x7dz".data) =
      some (Prod.mk ([] : Str) (Prod.mk (("--a:1;".data) : Str) (("z".data) : Str))) ∧
    resolve_css_variables (":root\x7b--a:1;\x7dz".data) =
      rootRemove (varSub (passLoop 5 (parse_css_declarations ("--a:1;".data)))
        (":root\x7b--a:1;\x7dz".data)) ∧
    (passStep [("--a".data)] [(("--a".data), ("1".data))]).2 = false ∧
    (passStep [("--a".data)] [(("--a".data), ("1".data))]).1 =
      [(("--a".data), ("1".data))] ∧
    passLoop 3 [(("--a".data), ("1".data))] = [(("--a".data), ("1".data))] := by
  refine ⟨by decide, ?_, by decide, ?_, ?_⟩
  · exact C5_resolution_pass_cap_terminates.1 (":root\x7b--a:1;\x7dz".data)
      (Prod.mk ([] : Str) (Prod.mk (("--a:1;".data) : Str) (("z".data) : Str)))
      (by decide)
  · exact C5_resolution_pass_cap_terminates.2.1 [("--a".data)]
      [(("--a".data), ("1".data))] (by decide)
  · exact C5_resolution_pass_cap_terminates.2.2.1 2
      [(("--a".data), ("1".data))] (by decide)

/-! ### Claim C6 — idempotence of variable resolution (corrected) -/

/-- C6 counterexample: the document `:root{--a:1;}p{color:red;}`
contains no `var(` reference at all — in particular none to a name of
its variable table — yet `resolve_css_variables` changes it (the `:root`
block is removed), so resolution is not idempotent in the claimed sense. -/
theorem C6_counterexample :
    containsSub ("var(".data) (":root\x7b--a:1;\x7dp\x7bcolor:red;\x7d".data) = false ∧
    resolve_css_variables (":root\x7b--a:1;\x7dp\x7bcolor:red;\x7d".data) ≠
      (":root\x7b--a:1;\x7dp\x7bcolor:red;\x7d".data) := by
  refine ⟨by decide, ?_⟩
  intro h
  have : resolve_css_variables (":root\x7b--a:1;\x7dp\x7bcolor:red;\x7d".data) =
      ("p\x7bcolor:red;\x7d".data) := by decide
  rw [this] at h
  exact absurd h (by decide)

/-- C6 (amended): variable resolution is a no-op exactly on documents in
which no `:root` block is found; consequently any output of
`resolve_css_variables` that no longer contains a `:root` block match is
a fixed point of `resolve_css_variables`.  (A document that still
contains a `:root` block — even one with no `var()` references — is
changed again by a second application, which removes that block.) -/
theorem C6_resolution_idempotent_without_root :
    (∀ css : Str, rootSearch css = none → resolve_css_variables css = css) ∧
    (∀ css : Str, rootSearch (resolve_css_variables css) = none →
      resolve_css_variables (resolve_css_variables css) = resolve_css_variables css) := by
  have h1 : ∀ css : Str, rootSearch css = none → resolve_css_variables css = css := by
    intro css h
    rw [resolve_css_variables, h]
  exact ⟨h1, fun css h => h1 _ h⟩

/-- Witness for C6 (amended) at concrete inputs. -/
theorem C6_witness :
    resolve_css_variables ("p\x7bcolor:red\x7d".data) = ("p\x7bcolor:red\x7d".data) ∧
    resolve_css_variables (resolve_css_variables (":root\x7b--a:1;\x7dz".data)) =
      resolve_css_variables (":root\x7b--a:1;\x7dz".data) := by
  constructor
  · exact C6_resolution_idempotent_without_root.1 _ (by decide)
  · exact C6_resolution_idempotent_without_root.2 _ (by decide)

/-! ### Structure of the publish result -/

/-- The `<style>` block (if any) prepended ahead of the published
fragment: the extracted pseudo rules, which never pass through the
inliner. -/
def publishStylePrelude (cache : List (Str × Str)) (theme_id : Str) : Str :=
  if (pyStrip (extract_pseudo_rules (publishCombinedCss cache theme_id))).isEmpty then []
  else ("<style>".data) ++ extract_pseudo_rules (publishCombinedCss cache theme_id)
    ++ ("</style>\n".data)

theorem apply_theme_for_publish_of_none {cache : List (Str × Str)} {inliner : Str → Str}
    {html theme_id : Str}
    (h0 : sectionSearch (inliner (publishFullHtml cache theme_id html)) = none) :
    apply_theme_for_publish cache inliner html theme_id =
      publishStylePrelude cache theme_id
        ++ sectionOpenLit ++ '>' :: html ++ sectionCloseLit := by
  rw [apply_theme_for_publish, publishStylePrelude]
  dsimp only
  rw [h0]
  dsimp only
  by_cases hp :
      (pyStrip (extract_pseudo_rules (publishCombinedCss cache theme_id))).isEmpty
  · rw [if_pos hp, if_pos hp, List.nil_append]
  · rw [if_neg hp, if_neg hp]
    simp [List.append_assoc]

theorem apply_theme_for_publish_of_some {cache : List (Str × Str)} {inliner : Str → Str}
    {html theme_id : Str} {g : Str × Str}
    (h0 : sectionSearch (inliner (publishFullHtml cache theme_id html)) = some g) :
    apply_theme_for_publish cache inliner html theme_id =
      publishStylePrelude cache theme_id ++ g.1 ++ g.2 ++ sectionCloseLit := by
  rw [apply_theme_for_publish, publishStylePrelude]
  dsimp only
  rw [h0]
  dsimp only
  by_cases hp :
      (pyStrip (extract_pseudo_rules (publishCombinedCss cache theme_id))).isEmpty
  · rw [if_pos hp, if_pos hp, List.nil_append]
  · rw [if_neg hp, if_neg hp]
    simp [List.append_assoc]

theorem sectionMatchAt_shape {s g1 g2 : Str} (h : sectionMatchAt s = some (g1, g2)) :
    ∃ run : Str, g1 = sectionOpenLit ++ run ++ ['>'] := by
  unfold sectionMatchAt at h
  split at h
  · cases h
  · rename_i a1 h1
    dsimp only at h
    split at h
    · cases h
    · rename_i c a2 h2
      split at h
      · cases h
      · rename_i br h3
        simp only [Option.some.injEq, Prod.mk.injEq] at h
        exact ⟨a1.takeWhile (fun c => c ≠ '>'), h.1.symm⟩

theorem sectionSearch_shape : ∀ {s g1 g2 : Str}, sectionSearch s = some (g1, g2) →
    ∃ run : Str, g1 = sectionOpenLit ++ run ++ ['>'] := by
  intro s
  induction s with
  | nil => intro g1 g2 h; cases h
  | cons c cs ih =>
    intro g1 g2 h
    rw [sectionSearch] at h
    cases hm : sectionMatchAt (c :: cs) with
    | some g =>
      rw [hm] at h
      simp only [Option.some.injEq] at h
      subst h
      exact sectionMatchAt_shape hm
    | none =>
      rw [hm] at h
      exact ih h

/-! ### Claim C7 — unknown theme id falls back to default -/

/-- C7: for a theme id absent from the cache, `_get_theme_css` returns
the `default` theme's CSS (empty if that is also absent) without error,
and the preview, publish and full markdown pipelines produce the very
same output for that id as for the id `default`. -/
theorem C7_unknown_theme_fallback :
    ∀ (cache : List (Str × Str)) (tid : Str), cache.lookup tid = none →
      get_theme_css cache tid = (cache.lookup ("default".data)).getD [] ∧
      get_theme_css cache tid = get_theme_css cache ("default".data) ∧
      (∀ html : Str, apply_theme_for_preview cache html tid =
        apply_theme_for_preview cache html ("default".data)) ∧
      (∀ (inliner : Str → Str) (html : Str),
        apply_theme_for_publish cache inliner html tid =
          apply_theme_for_publish cache inliner html ("default".data)) ∧
      (∀ (inliner md_to_html : Str → Str) (md : Str),
        markdown_to_wechat_html cache inliner md_to_html md tid =
          markdown_to_wechat_html cache inliner md_to_html md ("default".data)) := by
  intro cache tid h
  have hcss : get_theme_css cache tid = get_theme_css cache ("default".data) := by
    rw [get_theme_css, get_theme_css, h]
    cases hd : cache.lookup ("default".data) <;> rfl
  have hgetd : get_theme_css cache tid = (cache.lookup ("default".data)).getD [] := by
    rw [get_theme_css, h]
    cases hd : cache.lookup ("default".data) <;> rfl
  have hcomb : publishCombinedCss cache tid = publishCombinedCss cache ("default".data) := by
    rw [publishCombinedCss, publishCombinedCss, hcss]
  have hfull : ∀ html : Str, publishFullHtml cache tid html =
      publishFullHtml cache ("default".data) html := by
    intro html
    rw [publishFullHtml, publishFullHtml, hcomb]
  have hpub : ∀ (inliner : Str → Str) (html : Str),
      apply_theme_for_publish cache inliner html tid =
        apply_theme_for_publish cache inliner html ("default".data) := by
    intro inliner html
    rw [apply_theme_for_publish, apply_theme_for_publish, hcomb, hfull]
  refine ⟨hgetd, hcss, ?_, hpub, ?_⟩
  · intro html
    rw [apply_theme_for_preview, apply_theme_for_preview, hcss]
  · intro inliner md_to_html md
    rw [markdown_to_wechat_html, markdown_to_wechat_html, hpub]

/-- Witness for C7 at a concrete cache and unknown id. -/
theorem C7_witness :
    ([(("default".data : Str), ("x".data : Str))].lookup ("nonexistent".data) = none) ∧
    get_theme_css [(("default".data), ("x".data))] ("nonexistent".data) =
      get_theme_css [(("default".data), ("x".data))] ("default".data) ∧
    apply_theme_for_preview [(("default".data), ("x".data))] ("<p>h</p>".data)
        ("nonexistent".data) =
      apply_theme_for_preview [(("default".data), ("x".data))] ("<p>h</p>".data)
        ("default".data) := by
  have h := C7_unknown_theme_fallback [(("default".data), ("x".data))]
    ("nonexistent".data) (by decide)
  exact ⟨by decide, h.2.1, h.2.2.1 _⟩

/-! ### Claim C8 — inlining-failure fallback -/

/-- C8: if the inliner's output does not contain the expected
`<section id="wenyan" ...>...</section>` container, the publish path
falls back to wrapping the original pre-inlining fragment in the
container tags; and for every input (any inliner behavior at all) the
result is the optional pseudo-rule style prelude followed by a container
fragment — the pipeline is total and never propagates a failure. -/
theorem C8_publish_fallback_total :
    ∀ (cache : List (Str × Str)) (inliner : Str → Str) (html tid : Str),
      (sectionSearch (inliner (publishFullHtml cache tid html)) = none →
        apply_theme_for_publish cache inliner html tid =
          publishStylePrelude cache tid ++ sectionOpenLit ++ '>' :: html ++ sectionCloseLit) ∧
      (∃ mid : Str, apply_theme_for_publish cache inliner html tid =
        publishStylePrelude cache tid ++ sectionOpenLit ++ mid ++ sectionCloseLit) := by
  intro cache inliner html tid
  constructor
  · intro hnone
    exact apply_theme_for_publish_of_none hnone
  · cases hs : sectionSearch (inliner (publishFullHtml cache tid html)) with
    | none =>
      exact ⟨'>' :: html, apply_theme_for_publish_of_none hs⟩
    | some g =>
      obtain ⟨run, hrun⟩ := sectionSearch_shape hs
      refine ⟨run ++ '>' :: g.2, ?_⟩
      rw [apply_theme_for_publish_of_some hs, hrun]
      simp [List.append_assoc]

/-- Witness for C8: an inliner that discards its input triggers the
fallback wrapping. -/
theorem C8_witness :
    sectionSearch ((fun _ => ([] : Str)) (publishFullHtml [] ("default".data) ("hi".data)))
      = none ∧
    apply_theme_for_publish [] (fun _ => []) ("hi".data) ("default".data) =
      publishStylePrelude [] ("default".data) ++ sectionOpenLit ++ '>' :: ("hi".data)
        ++ sectionCloseLit :=
  ⟨by decide,
    (C8_publish_fallback_total [] (fun _ => []) ("hi".data) ("default".data)).1 (by decide)⟩

/-! ### Claim C10 — cache with neither the id nor `default` -/

/-- C10: when the theme cache contains neither the requested id nor a
`default` entry, theme lookup returns the empty string (not an error),
and for every HTML fragment both paths still return a well-formed
container: the preview output is the fixed style/section wrapper around
the fragment with empty CSS, and the publish output (for any inliner
behavior) is a bare `<section id="wenyan" ...>...</section>` fragment
with no pseudo-rule style block in front. -/
theorem C10_empty_cache_safe :
    ∀ (cache : List (Str × Str)) (tid : Str),
      cache.lookup tid = none → cache.lookup ("default".data) = none →
      get_theme_css cache tid = [] ∧
      (∀ html : Str, apply_theme_for_preview cache html tid =
        ("<style>\n\n</style>\n<section id=\"wenyan\">\n".data) ++ html
          ++ ("\n</section>".data)) ∧
      (∀ (inliner : Str → Str) (html : Str), ∃ mid : Str,
        apply_theme_for_publish cache inliner html tid =
          sectionOpenLit ++ mid ++ sectionCloseLit) := by
  intro cache tid h hd
  have hcss : get_theme_css cache tid = [] := by
    rw [get_theme_css, h, hd]
  have hcomb : publishCombinedCss cache tid = list_base_css := by
    rw [publishCombinedCss, hcss]
    decide
  have hpre : publishStylePrelude cache tid = [] := by
    rw [publishStylePrelude, hcomb]
    decide
  refine ⟨hcss, ?_, ?_⟩
  · intro html
    rw [apply_theme_for_preview, hcss]
    have hjoin : (("<style>\n".data : Str)) ++ ("\n</style>\n<section id=\"wenyan\">\n".data)
        = ("<style>\n\n</style>\n<section id=\"wenyan\">\n".data) := by decide
    rw [← hjoin]
    simp
  · intro inliner html
    cases hs : sectionSearch (inliner (publishFullHtml cache tid html)) with
    | none =>
      refine ⟨'>' :: html, ?_⟩
      rw [apply_theme_for_publish_of_none hs, hpre, List.nil_append]
    | some g =>
      obtain ⟨run, hrun⟩ := sectionSearch_shape hs
      refine ⟨run ++ '>' :: g.2, ?_⟩
      rw [apply_theme_for_publish_of_some hs, hpre, List.nil_append, hrun]
      simp [List.append_assoc]

/-- Witness for C10 at the empty cache. -/
theorem C10_witness :
    get_theme_css [] ("x".data) = [] ∧
    apply_theme_for_preview [] ("h".data) ("x".data) =
      ("<style>\n\n</style>\n<section id=\"wenyan\">\n".data) ++ ("h".data)
        ++ ("\n</section>".data) ∧
    (∃ mid : Str, apply_theme_for_publish [] (fun s => s) ("h".data) ("x".data) =
      sectionOpenLit ++ mid ++ sectionCloseLit) := by
  have h := C10_empty_cache_safe [] ("x".data) (by decide) (by decide)
  exact ⟨h.1, h.2.1 _, h.2.2 _ _⟩

/-! ### Claim C2 — pseudo rules and the inliner (corrected) -/

/-- C2 counterexample: with the default theme consisting of the single
rule `a:hover {color:red}`, that rule is extracted verbatim into the
supplementary style output, yet its text also sits, unremoved, inside
the combined CSS embedded in the full HTML document handed to the
inliner — so the rule *is* fed into the style inliner, contrary to the
claim. -/
theorem C2_counterexample :
    extract_pseudo_rules (publishCombinedCss
        [(("default".data : Str), ("a:hover \x7bcolor:red\x7d".data : Str))]
        ("default".data)) = ("a:hover \x7bcolor:red\x7d".data) ∧
    containsSub ("a:hover \x7bcolor:red\x7d".data)
      (publishFullHtml [(("default".data), ("a:hover \x7bcolor:red\x7d".data))]
        ("default".data) ("<p>hi</p>".data)) = true := by
  exact ⟨by decide, by decide⟩

/-- C2 (amended): every rule whose selector contains a recognized
pseudo-construct and whose stripped body is non-empty is emitted
verbatim as `selector {body}` into the supplementary style block, and
empty-bodied pseudo rules are skipped (shown on a document exercising
all three cases); the published result is always that block (possibly
empty) followed by the fragment, and the block is computed from the
theme CSS alone, never passed through the inliner.  The pseudo rules
are, however, not removed from the combined CSS: the full document
handed to the inliner still embeds the combined CSS, pseudo rules
included (whether they contribute inline declarations is then up to the
external `css_inline` library). -/
theorem C2_pseudo_rules_supplementary_block :
    extract_pseudo_rules
        ("h1:hover \x7bcolor: red\x7d\nh2::before \x7b\x7d\np \x7bmargin:0\x7d".data) =
      ("h1:hover \x7bcolor: red\x7d".data) ∧
    (∀ (cache : List (Str × Str)) (inliner : Str → Str) (html tid : Str),
      ∃ frag : Str, apply_theme_for_publish cache inliner html tid =
        publishStylePrelude cache tid ++ frag) ∧
    (∀ (cache : List (Str × Str)) (tid html : Str), ∃ pre post : Str,
      publishFullHtml cache tid html = pre ++ publishCombinedCss cache tid ++ post) := by
  refine ⟨by decide, ?_, ?_⟩
  · intro cache inliner html tid
    cases hs : sectionSearch (inliner (publishFullHtml cache tid html)) with
    | none =>
      refine ⟨sectionOpenLit ++ ('>' :: html ++ sectionCloseLit), ?_⟩
      rw [apply_theme_for_publish_of_none hs]
      simp [List.append_assoc]
    | some g =>
      refine ⟨g.1 ++ (g.2 ++ sectionCloseLit), ?_⟩
      rw [apply_theme_for_publish_of_some hs]
      simp [List.append_assoc]
  · intro cache tid html
    refine ⟨("<html><head><style>".data),
      ("</style></head>\n<body><section id=\"wenyan\">".data) ++ html
        ++ ("</section></body></html>".data), ?_⟩
    rw [publishFullHtml]
    simp [List.append_assoc]

/-! ### Claim C1 — ordered-list counters (corrected) -/

/-- C1 counterexample: in
`<ol><li>a</li><li>b<ol><li>x</li><li>y</li></ol></li><li>c</li></ol>`,
the ordered list nested inside the second item does not restart its
counter at 1: its first item receives the prefix `3. ` (continuing the
parent's counter) and not `1. `. -/
theorem C1_counterexample :
    containsSub ("<li>3. x".data)
      (inject_list_prefixes
        ("<ol><li>a</li><li>b<ol><li>x</li><li>y</li></ol></li><li>c</li></ol>".data))
      = true ∧
    containsSub ("<li>1. x".data)
      (inject_list_prefixes
        ("<ol><li>a</li><li>b<ol><li>x</li><li>y</li></ol></li><li>c</li></ol>".data))
      = false := by
  exact ⟨by decide, by decide⟩

/-- The `<li>...</li>` body text of an ordered list whose items' inner
HTML texts are given as a list of strings. -/
def mkOlBody : List Str → Str
  | [] => []
  | it :: rest => ("<li>".data) ++ it ++ ("</li>".data) ++ mkOlBody rest

/-- The same body with every item's content prefixed by its ordinal,
counting on from `n + 1`. -/
def numberedOlBody : Nat → List Str → Str
  | _, [] => []
  | n, it :: rest =>
    ("<li>".data) ++ numDotSpace (n + 1) ++ it ++ ("</li>".data)
      ++ numberedOlBody (n + 1) rest

theorem openTagMatchAt_li (z : Str) :
    openTagMatchAt ("<li".data) (("<li>".data) ++ z) = some (("<li>".data), z) := rfl

theorem openTagMatchAt_li_closeLi (z : Str) :
    openTagMatchAt ("<li".data) (("</li>".data) ++ z) = none := rfl

theorem openTagMatchAt_li_miss {c : Char} (hc : c ≠ '<') (z : Str) :
    openTagMatchAt ("<li".data) (c :: z) = none := by
  rw [openTagMatchAt]
  have h1 : stripPre ("<li".data) (c :: z) = none := by
    show stripPre ('<' :: 'l' :: 'i' :: []) (c :: z) = none
    rw [stripPre, if_neg (fun h => hc h.symm)]
  rw [h1]

theorem liNumberSub_li_item (n : Nat) (z : Str) :
    liNumberSub n (("<li>".data) ++ z) =
      ("<li>".data) ++ numDotSpace (n + 1) ++ liNumberSub (n + 1) z :=
  liNumberSub_cons_match (openTagMatchAt_li z)

theorem liNumberSub_append_flat : ∀ (u : Str), (∀ c ∈ u, c ≠ '<') →
    ∀ (n : Nat) (z : Str), liNumberSub n (u ++ z) = u ++ liNumberSub n z := by
  intro u
  induction u with
  | nil => intro _ n z; simp
  | cons c cs ih =>
    intro hu n z
    have hc : c ≠ '<' := hu c (List.mem_cons_self _ _)
    have h1 : liNumberSub n (c :: (cs ++ z)) = c :: liNumberSub n (cs ++ z) :=
      liNumberSub_cons_miss (openTagMatchAt_li_miss hc _)
    rw [List.cons_append, h1, ih (fun d hd => hu d (List.mem_cons_of_mem _ hd)) n z,
      List.cons_append]

theorem liNumberSub_append_closeLi (n : Nat) (z : Str) :
    liNumberSub n (("</li>".data) ++ z) = ("</li>".data) ++ liNumberSub n z := by
  have h1 : liNumberSub n (("</li>".data) ++ z) =
      '<' :: liNumberSub n (("/li>".data) ++ z) :=
    liNumberSub_cons_miss (openTagMatchAt_li_closeLi z)
  rw [h1, liNumberSub_append_flat ("/li>".data) (by decide) n z]
  rfl

/-- The rewriter numbers a well-formed list body's items consecutively,
`n + 1`, `n + 2`, ..., whenever the item texts contain no `<`. -/
theorem liNumberSub_mkOlBody : ∀ (items : List Str) (n : Nat),
    (∀ it ∈ items, ∀ c ∈ it, c ≠ '<') →
    liNumberSub n (mkOlBody items) = numberedOlBody n items := by
  intro items
  induction items with
  | nil => intro n _; rfl
  | cons it rest ih =>
    intro n hflat
    have hit : ∀ c ∈ it, c ≠ '<' := hflat it (List.mem_cons_self _ _)
    have hrest : ∀ x ∈ rest, ∀ c ∈ x, c ≠ '<' :=
      fun x hx => hflat x (List.mem_cons_of_mem _ hx)
    have hb : mkOlBody (it :: rest) =
        ("<li>".data) ++ (it ++ (("</li>".data) ++ mkOlBody rest)) := by
      rw [mkOlBody]
      simp [List.append_assoc]
    rw [hb, liNumberSub_li_item, liNumberSub_append_flat it hit,
      liNumberSub_append_closeLi, ih (n + 1) hrest, numberedOlBody]
    simp [List.append_assoc]

/-- C1 (amended): each `re.sub` match of the ordered-list pattern is
rewritten with a fresh counter starting at 1 (first general conjunct:
every match's body is numbered by `liNumberSub 0` and the scan of the
rest is independent; second general conjunct: `liNumberSub 0` numbers a
well-formed body's items `1. `, `2. `, ... whatever the item texts), so
two sibling ordered lists each receive prefixes `1. `, `2. `, ... — but
a *nested* ordered list lies inside the enclosing match's body, because
the lazy `(.*?)` ends the match at the *first* `</ol>`: the nested
list's items continue the parent's counter, and parent items after the
nested list are left without any prefix. -/
theorem C1_list_counters_per_match :
    (∀ (c : Char) (cs tag body rest : Str),
      blockMatchAt ("<ol".data) ("</ol>".data) (c :: cs) = some (tag, body, rest) →
      olSub (c :: cs) =
        forceListStyleNone tag ++ liNumberSub 0 body ++ ("</ol>".data) ++ olSub rest) ∧
    (∀ (items : List Str) (n : Nat), (∀ it ∈ items, ∀ c ∈ it, c ≠ '<') →
      liNumberSub n (mkOlBody items) = numberedOlBody n items) ∧
    inject_list_prefixes
        ("<ol><li>a</li><li>b</li></ol><p>m</p><ol><li>c</li><li>d</li></ol>".data) =
      ("<ol style=\"list-style:none;\"><li>1. a</li><li>2. b</li></ol><p>m</p><ol style=\"list-style:none;\"><li>1. c</li><li>2. d</li></ol>".data) ∧
    inject_list_prefixes
        ("<ol><li>a</li><li>b<ol><li>x</li><li>y</li></ol></li><li>c</li></ol>".data) =
      ("<ol style=\"list-style:none;\"><li>1. a</li><li>2. b<ol><li>3. x</li><li>4. y</li></ol></li><li>c</li></ol>".data) := by
  refine ⟨?_, liNumberSub_mkOlBody, by decide, by decide⟩
  intro c cs tag body rest h
  rw [olSub_cons_match h, replaceOl]

/-- Witness for C1 (amended) at a concrete single-item list and a
concrete two-item body. -/
theorem C1_witness :
    blockMatchAt ("<ol".data) ("</ol>".data) ("<ol><li>z</li></ol>".data) =
      some (Prod.mk (("<ol>".data : Str))
        (Prod.mk (("<li>z</li>".data : Str)) (([] : Str)))) ∧
    olSub ("<ol><li>z</li></ol>".data) =
      forceListStyleNone ("<ol>".data) ++ liNumberSub 0 ("<li>z</li>".data)
        ++ ("</ol>".data) ++ olSub [] ∧
    liNumberSub 0 (mkOlBody [("a".data), ("b".data)]) =
      numberedOlBody 0 [("a".data), ("b".data)] := by
  refine ⟨by decide, ?_, ?_⟩
  · exact C1_list_counters_per_match.1 '<' (("ol><li>z</li></ol>".data))
      ("<ol>".data) ("<li>z</li>".data) [] (by decide)
  · exact C1_list_counters_per_match.2.1 [("a".data), ("b".data)] 0 (by decide)

/-! ### Claim C3 — list-style forced to none (corrected) -/

/-- C3 counterexample: a same-type nested list's open tag is inside the
outer match's body and is never rewritten, so after publish-mode list
rewriting the inner `<ol>` still carries the active
`list-style-type:circle` from its inline style. -/
theorem C3_counterexample :
    containsSub ("<ol style=\"list-style-type:circle;\">".data)
      (inject_list_prefixes
        ("<ol style=\"list-style-type:circle;\"><li>a<ol style=\"list-style-type:circle;\"><li>x</li></ol></li></ol>".data))
      = true := by
  decide

theorem containsSub_isSome_split {pat t : Str} (h : containsSub pat t = true) :
    ∃ p : Str × Str, splitSub pat t = some p := by
  rw [containsSub] at h
  cases hsp : splitSub pat t with
  | none => rw [hsp] at h; cases h
  | some p => exact ⟨p, rfl⟩

theorem forceListStyleNone_contains_none (tag : Str)
    (h : containsSub styleQuoteLit (listStyleStripAll tag) = true ∨
      containsSub ['>'] (listStyleStripAll tag) = true) :
    containsSub listStyleNoneLit (forceListStyleNone tag) = true := by
  rw [forceListStyleNone]
  by_cases hq : containsSub styleQuoteLit (listStyleStripAll tag)
  · rw [if_pos hq]
    obtain ⟨⟨b, a⟩, hsp⟩ := containsSub_isSome_split hq
    rw [replaceAll_splitSub _ _ (by decide), hsp]
    have := containsSub_append_self listStyleNoneLit (b ++ styleQuoteLit)
      (replaceAll styleQuoteLit (styleQuoteLit ++ listStyleNoneLit) a)
    simpa [List.append_assoc] using this
  · rw [if_neg hq]
    cases h with
    | inl h2 => exact absurd h2 hq
    | inr h2 =>
      rw [replaceFirst]
      obtain ⟨⟨b, a⟩, hsp⟩ := containsSub_isSome_split h2
      rw [hsp]
      have := containsSub_append_self listStyleNoneLit (b ++ ' ' :: styleQuoteLit)
        (['"', '>'] ++ a)
      simpa [List.append_assoc] using this

theorem listStyleStripAll_ol_quoted (v : Str) :
    listStyleStripAll (("<ol style=\"".data) ++ v) =
      ("<ol style=\"".data) ++ listStyleStripAll v := by
  have h0 : listStyleMatchAt
      ('<' :: 'o' :: 'l' :: ' ' :: 's' :: 't' :: 'y' :: 'l' :: 'e' :: '=' :: '"' :: v) = none := rfl
  have h1 : listStyleMatchAt
      ('o' :: 'l' :: ' ' :: 's' :: 't' :: 'y' :: 'l' :: 'e' :: '=' :: '"' :: v) = none := rfl
  have h2 : listStyleMatchAt
      ('l' :: ' ' :: 's' :: 't' :: 'y' :: 'l' :: 'e' :: '=' :: '"' :: v) = none := rfl
  have h3 : listStyleMatchAt
      (' ' :: 's' :: 't' :: 'y' :: 'l' :: 'e' :: '=' :: '"' :: v) = none := rfl
  have h4 : listStyleMatchAt ('s' :: 't' :: 'y' :: 'l' :: 'e' :: '=' :: '"' :: v) = none := rfl
  have h5 : listStyleMatchAt ('t' :: 'y' :: 'l' :: 'e' :: '=' :: '"' :: v) = none := rfl
  have h6 : listStyleMatchAt ('y' :: 'l' :: 'e' :: '=' :: '"' :: v) = none := rfl
  have h7 : listStyleMatchAt ('l' :: 'e' :: '=' :: '"' :: v) = none := rfl
  have h8 : listStyleMatchAt ('e' :: '=' :: '"' :: v) = none := rfl
  have h9 : listStyleMatchAt ('=' :: '"' :: v) = none := rfl
  have h10 : listStyleMatchAt ('"' :: v) = none := rfl
  have hd : ("<ol style=\"".data : Str)
      = ['<', 'o', 'l', ' ', 's', 't', 'y', 'l', 'e', '=', '"'] := by decide
  rw [hd]
  simp only [List.cons_append, List.nil_append]
  rw [listStyleStripAll_cons_miss h0, listStyleStripAll_cons_miss h1,
    listStyleStripAll_cons_miss h2, listStyleStripAll_cons_miss h3,
    listStyleStripAll_cons_miss h4, listStyleStripAll_cons_miss h5,
    listStyleStripAll_cons_miss h6, listStyleStripAll_cons_miss h7,
    listStyleStripAll_cons_miss h8, listStyleStripAll_cons_miss h9,
    listStyleStripAll_cons_miss h10]

theorem listStyleStripAll_ul_quoted (v : Str) :
    listStyleStripAll (("<ul style=\"".data) ++ v) =
      ("<ul style=\"".data) ++ listStyleStripAll v := by
  have h0 : listStyleMatchAt
      ('<' :: 'u' :: 'l' :: ' ' :: 's' :: 't' :: 'y' :: 'l' :: 'e' :: '=' :: '"' :: v) = none := rfl
  have h1 : listStyleMatchAt
      ('u' :: 'l' :: ' ' :: 's' :: 't' :: 'y' :: 'l' :: 'e' :: '=' :: '"' :: v) = none := rfl
  have h2 : listStyleMatchAt
      ('l' :: ' ' :: 's' :: 't' :: 'y' :: 'l' :: 'e' :: '=' :: '"' :: v) = none := rfl
  have h3 : listStyleMatchAt
      (' ' :: 's' :: 't' :: 'y' :: 'l' :: 'e' :: '=' :: '"' :: v) = none := rfl
  have h4 : listStyleMatchAt ('s' :: 't' :: 'y' :: 'l' :: 'e' :: '=' :: '"' :: v) = none := rfl
  have h5 : listStyleMatchAt ('t' :: 'y' :: 'l' :: 'e' :: '=' :: '"' :: v) = none := rfl
  have h6 : listStyleMatchAt ('y' :: 'l' :: 'e' :: '=' :: '"' :: v) = none := rfl
  have h7 : listStyleMatchAt ('l' :: 'e' :: '=' :: '"' :: v) = none := rfl
  have h8 : listStyleMatchAt ('e' :: '=' :: '"' :: v) = none := rfl
  have h9 : listStyleMatchAt ('=' :: '"' :: v) = none := rfl
  have h10 : listStyleMatchAt ('"' :: v) = none := rfl
  have hd : ("<ul style=\"".data : Str)
      = ['<', 'u', 'l', ' ', 's', 't', 'y', 'l', 'e', '=', '"'] := by decide
  rw [hd]
  simp only [List.cons_append, List.nil_append]
  rw [listStyleStripAll_cons_miss h0, listStyleStripAll_cons_miss h1,
    listStyleStripAll_cons_miss h2, listStyleStripAll_cons_miss h3,
    listStyleStripAll_cons_miss h4, listStyleStripAll_cons_miss h5,
    listStyleStripAll_cons_miss h6, listStyleStripAll_cons_miss h7,
    listStyleStripAll_cons_miss h8, listStyleStripAll_cons_miss h9,
    listStyleStripAll_cons_miss h10]

theorem listStyleStripAll_ol_quoted_keeps (v : Str) :
    containsSub styleQuoteLit (listStyleStripAll (("<ol style=\"".data) ++ v)) = true := by
  rw [listStyleStripAll_ol_quoted]
  have hd : ("<ol style=\"".data : Str) = ("<ol ".data) ++ styleQuoteLit := by decide
  rw [hd]
  exact containsSub_append_self styleQuoteLit ("<ol ".data) (listStyleStripAll v)

theorem listStyleStripAll_ul_quoted_keeps (v : Str) :
    containsSub styleQuoteLit (listStyleStripAll (("<ul style=\"".data) ++ v)) = true := by
  rw [listStyleStripAll_ul_quoted]
  have hd : ("<ul style=\"".data : Str) = ("<ul ".data) ++ styleQuoteLit := by decide
  rw [hd]
  exact containsSub_append_self styleQuoteLit ("<ul ".data) (listStyleStripAll v)

theorem forceListStyleNone_ol_quoted (v : Str) :
    containsSub listStyleNoneLit
      (forceListStyleNone (("<ol style=\"".data) ++ v)) = true :=
  forceListStyleNone_contains_none _ (Or.inl (listStyleStripAll_ol_quoted_keeps v))

theorem forceListStyleNone_ul_quoted (v : Str) :
    containsSub listStyleNoneLit
      (forceListStyleNone (("<ul style=\"".data) ++ v)) = true :=
  forceListStyleNone_contains_none _ (Or.inl (listStyleStripAll_ul_quoted_keeps v))

/-- C3 (amended): a list open tag rewritten by the pass has every
`list-style[^;"]*:[^;"]*;?` occurrence removed from its tag text, and
`list-style:none` is forced into its style attribute whenever the
stripped tag still carries a `style="` attribute or a `>` — which holds
in particular for every tag of the double-quoted form `<ul style="...`
or `<ol style="...` that the inliner emits (a general lemma over the
attribute tail), shown concretely for a themed `<ul>` and `<ol>`.  Two
exceptions remain.  A matched tag whose unquoted `style=list-style:...`
attribute lets the strip regex consume the closing `>` receives no
`list-style:none` at all: `<ol style=list-style:circle>` strips to
`<ol style=` and the rewritten document contains no `list-style:none`.
And a same-type nested list's tag is not rewritten and may keep an
active `list-style-type` other than `none` (the counterexample). -/
theorem C3_forced_list_style_none :
    (∀ tag : Str,
      containsSub styleQuoteLit (listStyleStripAll tag) = true ∨
        containsSub ['>'] (listStyleStripAll tag) = true →
      containsSub listStyleNoneLit (forceListStyleNone tag) = true) ∧
    (∀ v : Str,
      containsSub listStyleNoneLit
          (forceListStyleNone (("<ul style=\"".data) ++ v)) = true ∧
      containsSub listStyleNoneLit
          (forceListStyleNone (("<ol style=\"".data) ++ v)) = true) ∧
    inject_list_prefixes
        ("<ul style=\"list-style-type: circle;color:red\"><li>one</li></ul>".data) =
      ("<ul style=\"list-style:none;color:red\"><li>• one</li></ul>".data) ∧
    inject_list_prefixes ("<ol style=\"list-style-type:decimal;\"><li>a</li></ol>".data) =
      ("<ol style=\"list-style:none;\"><li>1. a</li></ol>".data) ∧
    inject_list_prefixes ("<ol style=list-style:circle><li>a</li></ol>".data) =
      ("<ol style=<li>1. a</li></ol>".data) ∧
    containsSub listStyleNoneLit
        (inject_list_prefixes ("<ol style=list-style:circle><li>a</li></ol>".data)) = false :=
  ⟨forceListStyleNone_contains_none,
   fun v => ⟨forceListStyleNone_ul_quoted v, forceListStyleNone_ol_quoted v⟩,
   by decide, by decide, by decide, by decide⟩

/-- Witness for C3 (amended) at concrete tags. -/
theorem C3_witness :
    containsSub styleQuoteLit (listStyleStripAll ("<ol style=\"x\">".data)) = true ∧
    containsSub listStyleNoneLit (forceListStyleNone ("<ol style=\"x\">".data)) = true ∧
    containsSub listStyleNoneLit
      (forceListStyleNone (("<ul style=\"".data) ++ ("list-style-type:disc;\">".data)))
      = true :=
  ⟨by decide, C3_forced_list_style_none.1 ("<ol style=\"x\">".data) (Or.inl (by decide)),
   (C3_forced_list_style_none.2.1 ("list-style-type:disc;\">".data)).1⟩

end WechatHtml
